import Mathlib

/-!
# Verification of the ERP inventory core and its frontend helpers

This development shallowly embeds the inventory stock-mutation core of the
`erp-inventory-system` repository and the pure decision logic of its React
frontend (`BulkAdjustStockModal.tsx`, `CreateOrderModal.tsx`,
`api/orders.ts`), and proves the specified properties about them.

The backend inventory code (Django `inventory.models`, serializers and
views) is not present in the source snapshot — only its README description
and its frontend callers are — so the backend operations are modelled from
the specification (each such definition is marked `Modelled from the
spec:`).  The frontend TypeScript is present and is translated directly.
-/

namespace Erp

/-! ## Backend data model, modelled from the spec (§3 DATA MODEL) -/

/-- Modelled from the spec: a Product row — unique SKU string, numeric id,
`stock` integer with the `stock ≥ 0` invariant.  (The Django model
`inventory.models.Product` is not in the source snapshot.) -/
structure Product where
  id : Nat
  sku : String
  stock : Int
  deriving Repr, DecidableEq

/-- Modelled from the spec: the reason recorded on a stock movement,
`reason ∈ \x7border, manual_adjustment, order_cancelled\x7d`. -/
inductive Reason where
  | order
  | manualAdjustment
  | orderCancelled
  deriving Repr, DecidableEq

/-- Modelled from the spec: a StockMovement row — product reference,
optional order reference, `previous_stock`, signed nonzero `delta`,
`new_stock = previous_stock + delta`, and a reason. -/
structure StockMovement where
  product : Nat
  order : Option Nat
  previous_stock : Int
  delta : Int
  new_stock : Int
  reason : Reason
  deriving Repr, DecidableEq

/-- Modelled from the spec: order status `draft | confirmed | cancelled`. -/
inductive OrderStatus where
  | draft
  | confirmed
  | cancelled
  deriving Repr, DecidableEq

/-- Modelled from the spec: an OrderItem — product reference plus a
positive integer quantity. -/
structure OrderItem where
  product : Nat
  quantity : Nat
  deriving Repr, DecidableEq

/-- Modelled from the spec: an Order row — numeric id, customer name,
status, and its owned items. -/
structure Order where
  id : Nat
  customer_name : String
  status : OrderStatus
  items : List OrderItem
  deriving Repr, DecidableEq

/-- Modelled from the spec: the persistent store visible to the inventory
core — products, orders, the append-only movement ledger, and the id
counter for new orders. -/
structure Db where
  products : List Product
  orders : List Order
  movements : List StockMovement
  nextOrderId : Nat
  deriving Repr, DecidableEq

/-- Modelled from the spec (§7 ERROR HANDLING): the error taxonomy.
`insufficientStock` carries the offending product id, current stock, delta
and computed stock; `insufficientBatch` carries one such diagnostic per
violating product of a bulk batch; `productNotFound` carries the complete
set of missing ids. -/
inductive Err where
  | productNotFound (ids : List Nat)
  | insufficientStock (pid : Nat) (current delta computed : Int)
  | insufficientBatch (violations : List (Nat × Int × Int × Int))
  | invalidInput
  | orderNotFound (oid : Nat)
  | orderAlreadyCancelled (oid : Nat)
  deriving Repr, DecidableEq

/-- Look a product up by id (first row with that id). -/
def findProduct (db : Db) (pid : Nat) : Option Product :=
  db.products.find? (fun p => p.id = pid)

/-- The stock of product `pid` in `db` (0 when the product is absent). -/
def stockOf (db : Db) (pid : Nat) : Int :=
  ((findProduct db pid).map Product.stock).getD 0

/-- Look an order up by id. -/
def findOrder (db : Db) (oid : Nat) : Option Order :=
  db.orders.find? (fun o => o.id = oid)

/-- Write a new stock value for product `pid` (used only by `applyDelta`). -/
def setStock (db : Db) (pid : Nat) (s : Int) : Db :=
  { db with
    products := db.products.map (fun p => if p.id = pid then { p with stock := s } else p) }

/-- Modelled from the spec (§4.1 Stock Mutator, absent from the source
snapshot): `apply_delta(product_id, delta, reason, order_id?)`.  Requires a
nonzero delta and an existing product; rejects the mutation with no write
when `previous_stock + delta < 0`; on success writes the new stock and
appends exactly one ledger row recording before/after state. -/
def applyDelta (db : Db) (pid : Nat) (delta : Int) (reason : Reason)
    (oid : Option Nat) : Except Err Db :=
  if delta = 0 then .error .invalidInput
  else
    match findProduct db pid with
    | none => .error (.productNotFound [pid])
    | some p =>
      if p.stock + delta < 0 then
        .error (.insufficientStock pid p.stock delta (p.stock + delta))
      else
        let db1 := setStock db pid (p.stock + delta)
        .ok { db1 with
              movements := db1.movements ++
                [⟨pid, oid, p.stock, delta, p.stock + delta, reason⟩] }

/-- Modelled from the spec (§2 data flow): a coordinator invokes the Stock
Mutator once per line, sequentially, inside one unit of work; the first
failure aborts the rest. -/
def applySeq (db : Db) : List (Nat × Int × Reason × Option Nat) → Except Err Db
  | [] => .ok db
  | c :: rest =>
    match applyDelta db c.1 c.2.1 c.2.2.1 c.2.2.2 with
    | .error e => .error e
    | .ok db' => applySeq db' rest

/-- Modelled from the spec (§4.2 Order Placement Coordinator, absent from
the source snapshot): validate the request, create the Order row
(status = confirmed), deduct stock line by line with `delta = -quantity`
and `reason = order`; any failure aborts the whole unit of work (the
caller keeps the pre-call state, see `runPlaceOrder`). -/
def placeOrder (db : Db) (customer : String) (items : List OrderItem) :
    Except Err Db :=
  if items.isEmpty then .error .invalidInput
  else if items.any (fun it => it.quantity = 0) then .error .invalidInput
  else
    let oid := db.nextOrderId
    let db1 : Db :=
      { db with
        orders := db.orders ++ [⟨oid, customer, .confirmed, items⟩]
        nextOrderId := oid + 1 }
    applySeq db1 (items.map (fun it => (it.product, -(it.quantity : Int), .order, some oid)))

/-- The state the caller observes after `place_order`: the new state on
commit, the untouched pre-call state on abort (the storage layer rolls the
unit of work back). -/
def runPlaceOrder (db : Db) (customer : String) (items : List OrderItem) : Db :=
  match placeOrder db customer items with
  | .ok db' => db'
  | .error _ => db

/-- One step of net-delta aggregation: add the pair to an existing entry
for the same product, else append a fresh entry. -/
def aggPairsStep (acc : List (Nat × Int)) (e : Nat × Int) : List (Nat × Int) :=
  if acc.any (fun x => x.1 = e.1) then
    acc.map (fun x => if x.1 = e.1 then (x.1, x.2 + e.2) else x)
  else acc ++ [e]

/-- Modelled from the spec (§4.3): aggregate multiple entries for the same
product into a single net delta, keeping first-occurrence order. -/
def aggPairs (l : List (Nat × Int)) : List (Nat × Int) :=
  l.foldl aggPairsStep []

/-- Modelled from the spec (§4.3 Bulk Adjustment Coordinator, absent from
the source snapshot): non-empty input with nonzero deltas; aggregate per
product and drop zero nets; reject reporting the complete set of missing
ids; reject reporting every product whose computed stock would be
negative; otherwise apply every net delta with `reason =
manual_adjustment` in one unit of work. -/
def bulkAdjust (db : Db) (adjs : List (Nat × Int)) : Except Err Db :=
  if adjs.isEmpty then .error .invalidInput
  else if adjs.any (fun a => a.2 = 0) then .error .invalidInput
  else
    let net := (aggPairs adjs).filter (fun a => a.2 ≠ 0)
    let missing := (net.filter (fun a => (findProduct db a.1).isNone)).map (fun a => a.1)
    if missing.isEmpty then
      let viol := net.filterMap (fun a =>
        match findProduct db a.1 with
        | some p =>
          if p.stock + a.2 < 0 then some (a.1, p.stock, a.2, p.stock + a.2) else none
        | none => none)
      if viol.isEmpty then
        applySeq db (net.map (fun a => (a.1, a.2, .manualAdjustment, none)))
      else .error (.insufficientBatch viol)
    else .error (.productNotFound missing)

/-- Modelled from the spec (§4.4 Order Cancellation Handler, absent from
the source snapshot): for each item restore stock with `delta = +quantity`
and `reason = order_cancelled` linked to this order, then — only after all
restorative mutations succeed — set the status to cancelled.  Cancelling
an already-cancelled order is rejected with `OrderAlreadyCancelled` (the
documented policy choice of §4.4/§7). -/
def cancelOrder (db : Db) (oid : Nat) : Except Err Db :=
  match findOrder db oid with
  | none => .error (.orderNotFound oid)
  | some o =>
    if o.status = .cancelled then .error (.orderAlreadyCancelled oid)
    else
      match applySeq db (o.items.map (fun it =>
          (it.product, (it.quantity : Int), .orderCancelled, some oid))) with
      | .error e => .error e
      | .ok db1 =>
        .ok { db1 with
              orders := db1.orders.map (fun x =>
                if x.id = oid then { x with status := .cancelled } else x) }

/-- The state the caller observes after `cancel_order` (rollback on error). -/
def runCancelOrder (db : Db) (oid : Nat) : Db :=
  match cancelOrder db oid with
  | .ok db' => db'
  | .error _ => db

/-! ## Invariants -/

/-- Spec §8: for all products, at all times, `stock ≥ 0`. -/
def WFStock (db : Db) : Prop :=
  ∀ p ∈ db.products, 0 ≤ p.stock

instance : DecidablePred WFStock := fun db =>
  inferInstanceAs (Decidable (∀ p ∈ db.products, 0 ≤ p.stock))

/-- Spec §8: for every StockMovement,
`new_stock = previous_stock + delta` and `delta ≠ 0`. -/
def WFMov (db : Db) : Prop :=
  ∀ m ∈ db.movements, m.new_stock = m.previous_stock + m.delta ∧ m.delta ≠ 0

instance : DecidablePred WFMov := fun db =>
  inferInstanceAs (Decidable (∀ m ∈ db.movements, _ ∧ _))

/-! ## Basic lemmas about the Stock Mutator -/

theorem find?_map_key_pres {α : Type} (l : List α) (f : α → α) (key : α → Nat)
    (hf : ∀ a, key (f a) = key a) (k : Nat) :
    (l.map f).find? (fun a => key a = k) =
      (l.find? (fun a => key a = k)).map f := by
  induction l with
  | nil => rfl
  | cons a l ih =>
    by_cases h : key a = k
    · simp [List.find?, hf, h]
    · simp only [List.map_cons, List.find?]
      rw [show (decide (key (f a) = k)) = false by simp [hf, h],
          show (decide (key a = k)) = false by simp [h]]
      exact ih

theorem findProduct_setStock_self (db : Db) (pid : Nat) (s : Int) :
    findProduct (setStock db pid s) pid =
      (findProduct db pid).map (fun p => { p with stock := s }) := by
  unfold findProduct setStock
  simp only
  induction db.products with
  | nil => rfl
  | cons a l ih =>
    by_cases h : a.id = pid
    · simp [List.find?, h]
    · simp only [List.map_cons, List.find?]
      rw [show (decide ((if a.id = pid then { a with stock := s } else a).id = pid))
            = false by simp [h],
          show (decide (a.id = pid)) = false by simp [h]]
      exact ih

theorem findProduct_setStock_other (db : Db) (pid pid' : Nat) (s : Int)
    (h : pid' ≠ pid) :
    findProduct (setStock db pid s) pid' = findProduct db pid' := by
  unfold findProduct setStock
  simp only
  induction db.products with
  | nil => rfl
  | cons a l ih =>
    by_cases ha : a.id = pid'
    · have hnp : ¬ a.id = pid := by omega
      have hfa : (if a.id = pid then { a with stock := s } else a) = a := by
        simp [hnp]
      simp only [List.map_cons, List.find?, hfa]
      rw [show (decide (a.id = pid')) = true by simp [ha]]
    · simp only [List.map_cons, List.find?]
      rw [show (decide ((if a.id = pid then { a with stock := s } else a).id = pid'))
            = false by by_cases hb : a.id = pid <;> simp [hb, ha, Ne.symm h],
          show (decide (a.id = pid')) = false by simp [ha]]
      exact ih

/-- Everything `applyDelta` guarantees on success, in one statement. -/
theorem applyDelta_ok_spec {db : Db} {pid : Nat} {d : Int} {r : Reason}
    {oid : Option Nat} {db' : Db}
    (h : applyDelta db pid d r oid = .ok db') :
    ∃ p, findProduct db pid = some p ∧ d ≠ 0 ∧ 0 ≤ p.stock + d ∧
      db'.products = db.products.map
        (fun q => if q.id = pid then { q with stock := p.stock + d } else q) ∧
      db'.orders = db.orders ∧
      db'.nextOrderId = db.nextOrderId ∧
      db'.movements = db.movements ++ [⟨pid, oid, p.stock, d, p.stock + d, r⟩] := by
  unfold applyDelta at h
  split at h
  · exact Except.noConfusion h
  next hd =>
    split at h
    · exact Except.noConfusion h
    next p hp =>
      split at h
      · exact Except.noConfusion h
      next hneg =>
        injection h with h
        subst h
        exact ⟨p, hp, hd, by omega, rfl, rfl, rfl, rfl⟩

theorem applyDelta_preserves_WFStock {db : Db} {pid : Nat} {d : Int}
    {r : Reason} {oid : Option Nat} {db' : Db}
    (h : applyDelta db pid d r oid = .ok db') (hwf : WFStock db) :
    WFStock db' := by
  obtain ⟨p, _, _, hge, hprod, -⟩ := applyDelta_ok_spec h
  intro q hq
  rw [hprod] at hq
  obtain ⟨q0, hq0, rfl⟩ := List.mem_map.mp hq
  by_cases hid : q0.id = pid
  · simpa [hid] using hge
  · simpa [hid] using hwf q0 hq0

theorem applyDelta_preserves_WFMov {db : Db} {pid : Nat} {d : Int}
    {r : Reason} {oid : Option Nat} {db' : Db}
    (h : applyDelta db pid d r oid = .ok db') (hwf : WFMov db) :
    WFMov db' := by
  obtain ⟨p, _, hd, _, _, _, _, hmov⟩ := applyDelta_ok_spec h
  intro m hm
  rw [hmov] at hm
  rcases List.mem_append.mp hm with hm | hm
  · exact hwf m hm
  · simp at hm
    subst hm
    exact ⟨rfl, hd⟩

theorem applyDelta_ledger_grows {db : Db} {pid : Nat} {d : Int}
    {r : Reason} {oid : Option Nat} {db' : Db}
    (h : applyDelta db pid d r oid = .ok db') :
    db.movements <+: db'.movements := by
  obtain ⟨p, -, -, -, -, -, -, hmov⟩ := applyDelta_ok_spec h
  exact hmov ▸ ⟨_, rfl⟩

theorem applyDelta_insufficient {db : Db} {pid : Nat} {d : Int}
    (r : Reason) (oid : Option Nat) {p : Product}
    (hp : findProduct db pid = some p) (hd : d ≠ 0)
    (hneg : p.stock + d < 0) :
    applyDelta db pid d r oid =
      .error (.insufficientStock pid p.stock d (p.stock + d)) := by
  unfold applyDelta
  rw [if_neg hd]
  simp only [hp]
  rw [if_pos hneg]

/-- Success facts for a whole sequential run of mutator calls. -/
theorem applySeq_ok_spec :
    ∀ (l : List (Nat × Int × Reason × Option Nat)) (db db' : Db),
    applySeq db l = .ok db' →
      (WFStock db → WFStock db') ∧ (WFMov db → WFMov db') ∧
      db.movements <+: db'.movements ∧
      db'.orders = db.orders ∧ db'.nextOrderId = db.nextOrderId := by
  intro l
  induction l with
  | nil =>
    intro db db' h
    injection h with h
    subst h
    exact ⟨id, id, List.prefix_refl _, rfl, rfl⟩
  | cons c rest ih =>
    intro db db' h
    unfold applySeq at h
    split at h
    · exact Except.noConfusion h
    · next db1 ha =>
      obtain ⟨hwf, hmv, hpre, hord, hnid⟩ := ih db1 db' h
      obtain ⟨p, -, -, -, -, hord1, hnid1, -⟩ := applyDelta_ok_spec ha
      exact ⟨fun w => hwf (applyDelta_preserves_WFStock ha w),
             fun w => hmv (applyDelta_preserves_WFMov ha w),
             (applyDelta_ledger_grows ha).trans hpre,
             hord.trans hord1, hnid.trans hnid1⟩

/-- Success facts for `placeOrder`: the coordinator only adds the order
row and then runs the mutator sequence, so the invariants carry over. -/
theorem placeOrder_ok_spec {db : Db} {c : String} {items : List OrderItem}
    {db' : Db} (h : placeOrder db c items = .ok db') :
    (WFStock db → WFStock db') ∧ (WFMov db → WFMov db') ∧
    db.movements <+: db'.movements := by
  unfold placeOrder at h
  split at h
  · exact Except.noConfusion h
  split at h
  · exact Except.noConfusion h
  obtain ⟨hwf, hmv, hpre, -, -⟩ := applySeq_ok_spec _ _ _ h
  exact ⟨fun w => hwf w, fun w => hmv w, hpre⟩

/-- Success facts for `bulkAdjust`. -/
theorem bulkAdjust_ok_spec {db : Db} {adjs : List (Nat × Int)} {db' : Db}
    (h : bulkAdjust db adjs = .ok db') :
    (WFStock db → WFStock db') ∧ (WFMov db → WFMov db') ∧
    db.movements <+: db'.movements ∧ db'.orders = db.orders := by
  unfold bulkAdjust at h
  split at h
  · exact Except.noConfusion h
  split at h
  · exact Except.noConfusion h
  dsimp only at h
  split at h
  · split at h
    · obtain ⟨hwf, hmv, hpre, hord, -⟩ := applySeq_ok_spec _ _ _ h
      exact ⟨hwf, hmv, hpre, hord⟩
    · exact Except.noConfusion h
  · exact Except.noConfusion h

/-- Success facts for `cancelOrder`. -/
theorem cancelOrder_ok_spec {db : Db} {oid : Nat} {db' : Db}
    (h : cancelOrder db oid = .ok db') :
    (WFStock db → WFStock db') ∧ (WFMov db → WFMov db') ∧
    db.movements <+: db'.movements := by
  unfold cancelOrder at h
  split at h
  · exact Except.noConfusion h
  next o ho =>
    split at h
    · exact Except.noConfusion h
    split at h
    · exact Except.noConfusion h
    next db1 ha =>
      injection h with h
      subst h
      obtain ⟨hwf, hmv, hpre, -, -⟩ := applySeq_ok_spec _ _ _ ha
      exact ⟨fun w => hwf w, fun w => hmv w, hpre⟩

/-! ## Claim theorems C1, C2, C3, C7 -/

/-- C1: for every product and after every operation (place_order,
bulk_adjust, cancel_order, any stock mutation) the stock stays ≥ 0, and a
mutation whose resulting stock would be negative is rejected (an
`InsufficientStock` error, before any write — the error branch performs no
write, so the caller's state is unchanged). -/
theorem stock_never_negative (db : Db) (hwf : WFStock db) :
    (∀ pid d r oid db', applyDelta db pid d r oid = .ok db' → WFStock db') ∧
    (∀ c items db', placeOrder db c items = .ok db' → WFStock db') ∧
    (∀ adjs db', bulkAdjust db adjs = .ok db' → WFStock db') ∧
    (∀ oid db', cancelOrder db oid = .ok db' → WFStock db') ∧
    (∀ pid d r oid p, findProduct db pid = some p → d ≠ 0 → p.stock + d < 0 →
      applyDelta db pid d r oid =
        .error (.insufficientStock pid p.stock d (p.stock + d))) := by
  refine ⟨fun pid d r oid db' h => applyDelta_preserves_WFStock h hwf,
          fun c items db' h => (placeOrder_ok_spec h).1 hwf,
          fun adjs db' h => (bulkAdjust_ok_spec h).1 hwf,
          fun oid db' h => (cancelOrder_ok_spec h).1 hwf,
          fun pid d r oid p hp hd hneg => applyDelta_insufficient r oid hp hd hneg⟩

/-- A database with one product `P001` of stock 2 (spec §8 scenario). -/
def dbLow : Db := ⟨[⟨1, "P001", 2⟩], [], [], 1⟩

/-- Witness for C1 at a concrete input: in `dbLow` (stock 2, all stocks
nonnegative), a mutation of −5 is rejected with `InsufficientStock`. -/
theorem stock_never_negative_witness :
    WFStock dbLow ∧
    applyDelta dbLow 1 (-5) .order none =
      .error (.insufficientStock 1 2 (-5) (-3)) := by
  refine ⟨by decide, ?_⟩
  have h := (stock_never_negative dbLow (by decide)).2.2.2.2 1 (-5) .order none
    ⟨1, "P001", 2⟩ rfl (by decide) (by decide)
  exact h

/-- C2: a failed `place_order` call has no partial effect — the observed
state after the call equals the state before it: same orders, same
movements, every product's stock unchanged. -/
theorem placeOrder_atomic (db : Db) (c : String) (items : List OrderItem)
    (e : Err) (h : placeOrder db c items = .error e) :
    runPlaceOrder db c items = db ∧
    (runPlaceOrder db c items).orders = db.orders ∧
    (runPlaceOrder db c items).movements = db.movements ∧
    (∀ pid, stockOf (runPlaceOrder db c items) pid = stockOf db pid) := by
  have hr : runPlaceOrder db c items = db := by
    unfold runPlaceOrder
    rw [h]
  exact ⟨hr, by rw [hr], by rw [hr], fun pid => by rw [hr]⟩

/-- Witness for C2: the spec §8 scenario — stock 2, ordering 5 fails with
`InsufficientStock` and leaves the state exactly as before. -/
theorem placeOrder_atomic_witness :
    placeOrder dbLow "Test Customer" [⟨1, 5⟩] =
      .error (.insufficientStock 1 2 (-5) (-3)) ∧
    runPlaceOrder dbLow "Test Customer" [⟨1, 5⟩] = dbLow := by
  have h : placeOrder dbLow "Test Customer" [⟨1, 5⟩] =
      .error (.insufficientStock 1 2 (-5) (-3)) := by rfl
  exact ⟨h, (placeOrder_atomic dbLow "Test Customer" [⟨1, 5⟩] _ h).1⟩

/-- C3: every operation only ever appends to the movement ledger (the
previous ledger is a prefix of the new one — nothing is mutated or
deleted), and every ledger row ever created satisfies
`new_stock = previous_stock + delta` and `delta ≠ 0`. -/
theorem movements_ledger_invariant (db : Db) (hwf : WFMov db) :
    (∀ pid d r oid db', applyDelta db pid d r oid = .ok db' →
        WFMov db' ∧ db.movements <+: db'.movements) ∧
    (∀ c items db', placeOrder db c items = .ok db' →
        WFMov db' ∧ db.movements <+: db'.movements) ∧
    (∀ adjs db', bulkAdjust db adjs = .ok db' →
        WFMov db' ∧ db.movements <+: db'.movements) ∧
    (∀ oid db', cancelOrder db oid = .ok db' →
        WFMov db' ∧ db.movements <+: db'.movements) := by
  refine ⟨fun pid d r oid db' h =>
            ⟨applyDelta_preserves_WFMov h hwf, applyDelta_ledger_grows h⟩,
          fun c items db' h =>
            ⟨(placeOrder_ok_spec h).2.1 hwf, (placeOrder_ok_spec h).2.2⟩,
          fun adjs db' h =>
            ⟨(bulkAdjust_ok_spec h).2.1 hwf, (bulkAdjust_ok_spec h).2.2.1⟩,
          fun oid db' h =>
            ⟨(cancelOrder_ok_spec h).2.1 hwf, (cancelOrder_ok_spec h).2.2⟩⟩

/-- A database with one product `P001` of stock 10 and an empty ledger. -/
def dbTen : Db := ⟨[⟨1, "P001", 10⟩], [], [], 1⟩

/-- Witness for C3: a successful +5 manual adjustment on stock 10 leaves a
well-formed ledger of which the old (empty) ledger is a prefix. -/
theorem movements_ledger_invariant_witness :
    WFMov dbTen ∧
    applyDelta dbTen 1 5 .manualAdjustment none =
      .ok ⟨[⟨1, "P001", 15⟩], [], [⟨1, none, 10, 5, 15, .manualAdjustment⟩], 1⟩ ∧
    WFMov ⟨[⟨1, "P001", 15⟩], [], [⟨1, none, 10, 5, 15, .manualAdjustment⟩], 1⟩ := by
  refine ⟨by decide, by rfl, ?_⟩
  exact ((movements_ledger_invariant dbTen (by decide)).1 1 5 .manualAdjustment
    none _ (by rfl)).1

/-- C7: the cancellation policy for an already-cancelled order is one
single deterministic rule — for every database and every order whose
status is cancelled, `cancel_order` is rejected with
`OrderAlreadyCancelled` and changes nothing.  (This explicit-rejection
policy is the documented choice of spec §4.4/§7.) -/
theorem cancel_already_cancelled_policy (db : Db) (oid : Nat) (o : Order)
    (ho : findOrder db oid = some o) (hc : o.status = .cancelled) :
    cancelOrder db oid = .error (.orderAlreadyCancelled oid) ∧
    runCancelOrder db oid = db := by
  have h1 : cancelOrder db oid = .error (.orderAlreadyCancelled oid) := by
    unfold cancelOrder
    simp only [ho]
    rw [if_pos hc]
  refine ⟨h1, ?_⟩
  unfold runCancelOrder
  rw [h1]

/-! ## Claim C6: cancellation restores stock and audits each item -/

/-- The compensating ledger row that cancelling order `oid` writes for
item `it`, expressed over the pre-cancellation state `db`. -/
def cancelMove (db : Db) (oid : Nat) (it : OrderItem) : StockMovement :=
  { product := it.product
    order := some oid
    previous_stock := stockOf db it.product
    delta := (it.quantity : Int)
    new_stock := stockOf db it.product + (it.quantity : Int)
    reason := .orderCancelled }

theorem stockOf_eq {db : Db} {pid : Nat} {p : Product}
    (hp : findProduct db pid = some p) : stockOf db pid = p.stock := by
  unfold stockOf
  rw [hp]
  rfl

/-- Running the restorative mutator sequence of a cancellation over items
with distinct, existing products succeeds and produces exactly one
compensating movement per item while raising each stock by its quantity. -/
theorem cancel_applySeq_ok :
    ∀ (items : List OrderItem) (db : Db) (oid : Nat),
    WFStock db →
    (items.map OrderItem.product).Nodup →
    (∀ it ∈ items, 0 < it.quantity) →
    (∀ it ∈ items, (findProduct db it.product).isSome) →
    ∃ db1,
      applySeq db (items.map (fun it =>
        (it.product, (it.quantity : Int), Reason.orderCancelled, some oid))) = .ok db1 ∧
      db1.orders = db.orders ∧ db1.nextOrderId = db.nextOrderId ∧
      db1.movements = db.movements ++ items.map (cancelMove db oid) ∧
      (∀ pid, pid ∉ items.map OrderItem.product →
        findProduct db1 pid = findProduct db pid) ∧
      (∀ it ∈ items, stockOf db1 it.product =
        stockOf db it.product + it.quantity) := by
  intro items
  induction items with
  | nil =>
    intro db oid _ _ _ _
    exact ⟨db, rfl, rfl, rfl, by simp, fun pid _ => rfl, by simp⟩
  | cons it rest ih =>
    intro db oid hwf hnd hpos hex
    obtain ⟨p, hp⟩ := Option.isSome_iff_exists.mp (hex it (by simp))
    have hq : 0 < it.quantity := hpos it (by simp)
    have hps : 0 ≤ p.stock := hwf p (List.mem_of_find?_eq_some hp)
    have hqz : (it.quantity : Int) ≠ 0 := by omega
    have hnneg : ¬ p.stock + (it.quantity : Int) < 0 := by omega
    have hstep : applyDelta db it.product (it.quantity : Int)
        .orderCancelled (some oid) =
        .ok { setStock db it.product (p.stock + (it.quantity : Int)) with
              movements := db.movements ++
                [⟨it.product, some oid, p.stock, (it.quantity : Int),
                  p.stock + (it.quantity : Int), .orderCancelled⟩] } := by
      unfold applyDelta
      rw [if_neg hqz]
      simp only [hp]
      rw [if_neg hnneg]
      rfl
    have hwfStep := applyDelta_preserves_WFStock hstep hwf
    have hhead : it.product ∉ rest.map OrderItem.product :=
      (List.nodup_cons.mp hnd).1
    have hndr : (rest.map OrderItem.product).Nodup := (List.nodup_cons.mp hnd).2
    set dbStep : Db :=
      { setStock db it.product (p.stock + (it.quantity : Int)) with
        movements := db.movements ++
          [⟨it.product, some oid, p.stock, (it.quantity : Int),
            p.stock + (it.quantity : Int), .orderCancelled⟩] } with hdbStep
    have hfp_other : ∀ pid', pid' ≠ it.product →
        findProduct dbStep pid' = findProduct db pid' := by
      intro pid' hne
      exact findProduct_setStock_other db it.product pid' _ hne
    have hexr : ∀ it' ∈ rest, (findProduct dbStep it'.product).isSome := by
      intro it' hm
      have hne : it'.product ≠ it.product := by
        intro hc
        exact hhead (hc ▸ List.mem_map_of_mem _ hm)
      rw [hfp_other _ hne]
      exact hex it' (by simp [hm])
    obtain ⟨db1, hseq, hord, hnid, hmov, hunch, hst⟩ :=
      ih dbStep oid hwfStep hndr (fun it' hm => hpos it' (by simp [hm])) hexr
    refine ⟨db1, ?_, ?_, ?_, ?_, ?_, ?_⟩
    · show applySeq db (_ :: rest.map _) = .ok db1
      unfold applySeq
      simp only [hstep]
      exact hseq
    · rw [hord]
      rfl
    · rw [hnid]
      rfl
    · rw [hmov]
      have hcongr : rest.map (cancelMove dbStep oid) =
          rest.map (cancelMove db oid) := by
        apply List.map_congr_left
        intro it' hm
        have hne : it'.product ≠ it.product := by
          intro hc
          exact hhead (hc ▸ List.mem_map_of_mem _ hm)
        unfold cancelMove
        rw [show stockOf dbStep it'.product = stockOf db it'.product from by
          unfold stockOf; rw [hfp_other _ hne]]
      rw [hcongr, List.map_cons,
          show cancelMove db oid it =
            ⟨it.product, some oid, p.stock, (it.quantity : Int),
              p.stock + (it.quantity : Int), .orderCancelled⟩ from by
            unfold cancelMove; rw [stockOf_eq hp]]
      simp [hdbStep, List.append_assoc]
    · intro pid hpid
      have h1 : pid ∉ rest.map OrderItem.product := fun hm => hpid (by simp [hm])
      have h2 : pid ≠ it.product := fun hc => hpid (by simp [hc])
      rw [hunch pid h1, hfp_other pid h2]
    · intro it' hm
      rcases List.mem_cons.mp hm with hcase | hcase
      · subst hcase
        have hu : findProduct db1 it'.product = findProduct dbStep it'.product :=
          hunch _ hhead
        have hself : findProduct dbStep it'.product =
            some { p with stock := p.stock + (it'.quantity : Int) } := by
          show findProduct (setStock db it'.product _) it'.product = _
          rw [findProduct_setStock_self, hp]
          rfl
        unfold stockOf
        rw [hu, hself, hp]
        simp
      · have hne : it'.product ≠ it.product := by
          intro hc
          exact hhead (hc ▸ List.mem_map_of_mem _ hcase)
        rw [hst it' hcase]
        have : stockOf dbStep it'.product = stockOf db it'.product := by
          unfold stockOf
          rw [hfp_other _ hne]
        rw [this]

/-- C6: cancelling a confirmed order restores each item's quantity to its
product's stock, appends exactly one compensating movement per item
(`delta = +quantity`, `reason = order_cancelled`, order reference = this
order), and sets the order's status to cancelled; and the status is set
only after all restorative mutations succeed — a failed cancellation
leaves the state untouched. -/
theorem cancel_restores_stock :
    (∀ (db : Db) (oid : Nat) (o : Order),
      WFStock db →
      findOrder db oid = some o →
      o.status = .confirmed →
      (o.items.map OrderItem.product).Nodup →
      (∀ it ∈ o.items, 0 < it.quantity) →
      (∀ it ∈ o.items, (findProduct db it.product).isSome) →
      ∃ db', cancelOrder db oid = .ok db' ∧
        db'.movements = db.movements ++ o.items.map (cancelMove db oid) ∧
        (∀ it ∈ o.items, stockOf db' it.product =
          stockOf db it.product + it.quantity) ∧
        (∃ o', findOrder db' oid = some o' ∧ o'.status = .cancelled ∧
          o'.items = o.items)) ∧
    (∀ (db : Db) (oid : Nat) (e : Err),
      cancelOrder db oid = .error e → runCancelOrder db oid = db) := by
  constructor
  · intro db oid o hwf ho hconf hnd hpos hex
    obtain ⟨db1, hseq, hord, hnid, hmov, hunch, hst⟩ :=
      cancel_applySeq_ok o.items db oid hwf hnd hpos hex
    have hoid : o.id = oid := by
      have := List.find?_some ho
      simpa using this
    have hnc : ¬ o.status = .cancelled := by
      rw [hconf]
      intro hh
      exact OrderStatus.noConfusion hh
    have hcancel : cancelOrder db oid =
        .ok { db1 with orders := db1.orders.map (fun x =>
          if x.id = oid then { x with status := .cancelled } else x) } := by
      unfold cancelOrder
      simp only [ho]
      rw [if_neg hnc]
      simp only [hseq]
    refine ⟨_, hcancel, hmov, ?_, ?_⟩
    · intro it hm
      have := hst it hm
      unfold stockOf at this ⊢
      exact this
    · refine ⟨{ o with status := .cancelled }, ?_, rfl, rfl⟩
      show (db1.orders.map (fun x =>
          if x.id = oid then { x with status := OrderStatus.cancelled } else x)).find?
          (fun x => x.id = oid) =
        some { o with status := OrderStatus.cancelled }
      rw [find?_map_key_pres _ _ Order.id
            (fun a => by by_cases hh : a.id = oid <;> simp [hh]) oid,
          hord,
          show db.orders.find? (fun x => x.id = oid) = some o from ho]
      simp [hoid]
  · intro db oid e h
    unfold runCancelOrder
    rw [h]

/-- A concrete confirmed two-line order. -/
def ordConf : Order := ⟨1, "Alice", .confirmed, [⟨1, 3⟩, ⟨2, 2⟩]⟩

/-- A database with two products and one confirmed two-line order. -/
def dbConf : Db := ⟨[⟨1, "P001", 7⟩, ⟨2, "P002", 4⟩], [ordConf], [], 2⟩

/-- Witness for C6 at a concrete input: cancelling the confirmed order 1
of `dbConf` succeeds with the promised stock restoration, compensating
movements and status transition. -/
theorem cancel_restores_stock_witness :
    WFStock dbConf ∧
    ∃ db', cancelOrder dbConf 1 = .ok db' ∧
      db'.movements = dbConf.movements ++ ordConf.items.map (cancelMove dbConf 1) ∧
      (∀ it ∈ ordConf.items,
        stockOf db' it.product = stockOf dbConf it.product + it.quantity) ∧
      (∃ o', findOrder db' 1 = some o' ∧ o'.status = .cancelled ∧
        o'.items = ordConf.items) := by
  refine ⟨by decide, ?_⟩
  exact cancel_restores_stock.1 dbConf 1 ordConf
    (by decide) (by rfl) (by rfl) (by decide) (by decide) (by decide)

/-! ## Claim C8: per-product serialization under an exclusive row lock

Modelled from the spec (§4.1 concurrency note, §5): the backend reads a
product's stock only after taking an exclusive row lock
(`select_for_update` inside `transaction.atomic`, code absent from the
source snapshot) and releases the lock when the transaction commits.  Two
transactions racing on one product are modelled as an interleaving of
acquire/commit steps over that product's row. -/

/-- Modelled from the spec: the lifecycle of one mutating transaction on
one product row — not yet started, holding the row lock after reading
`prev`, or committed having moved the stock from `prev` to `new`. -/
inductive TxPhase where
  | idle
  | holding (prev : Int)
  | committed (prev new : Int)
  deriving Repr, DecidableEq

/-- Modelled from the spec: the shared state of one product row — its
stock, the lock owner (1, 2 or free), and both transactions' phases. -/
structure RowState where
  stock : Int
  lock : Option (Fin 2)
  tx1 : TxPhase
  tx2 : TxPhase
  deriving Repr, DecidableEq

/-- Modelled from the spec: the interleaving steps.  A transaction
acquires the free lock and reads the current stock under it; committing
writes `prev + delta`, records the before/after pair and frees the lock.
`d1`, `d2` are the two transactions' net deltas for this product. -/
inductive RowStep (d1 d2 : Int) : RowState → RowState → Prop where
  | acquire1 (s : RowState) : s.lock = none → s.tx1 = .idle →
      RowStep d1 d2 s { s with lock := some 0, tx1 := .holding s.stock }
  | commit1 (s : RowState) (p : Int) : s.lock = some 0 → s.tx1 = .holding p →
      RowStep d1 d2 s
        { s with stock := p + d1, lock := none, tx1 := .committed p (p + d1) }
  | acquire2 (s : RowState) : s.lock = none → s.tx2 = .idle →
      RowStep d1 d2 s { s with lock := some 1, tx2 := .holding s.stock }
  | commit2 (s : RowState) (p : Int) : s.lock = some 1 → s.tx2 = .holding p →
      RowStep d1 d2 s
        { s with stock := p + d2, lock := none, tx2 := .committed p (p + d2) }

/-- States reachable from both transactions idle on stock `s0`. -/
inductive RowReach (d1 d2 : Int) (s0 : Int) : RowState → Prop where
  | init : RowReach d1 d2 s0 ⟨s0, none, .idle, .idle⟩
  | step {s s' : RowState} : RowReach d1 d2 s0 s → RowStep d1 d2 s s' →
      RowReach d1 d2 s0 s'

/-- The inductive invariant of the two-transaction lock protocol. -/
def RowInv (d1 d2 : Int) (s : RowState) : Prop :=
  (∀ p, s.tx1 = .holding p → s.lock = some 0 ∧ s.stock = p) ∧
  (∀ p, s.tx2 = .holding p → s.lock = some 1 ∧ s.stock = p) ∧
  (∀ p n, s.tx1 = .committed p n → n = p + d1) ∧
  (∀ p n, s.tx2 = .committed p n → n = p + d2) ∧
  (∀ p n, s.tx1 = .committed p n →
    (∀ q m, s.tx2 ≠ .committed q m) → s.stock = n) ∧
  (∀ p n, s.tx2 = .committed p n →
    (∀ q m, s.tx1 ≠ .committed q m) → s.stock = n) ∧
  (∀ p n q m, s.tx1 = .committed p n → s.tx2 = .committed q m →
    (q = n ∨ p = m))

theorem rowInv_init (d1 d2 s0 : Int) :
    RowInv d1 d2 ⟨s0, none, .idle, .idle⟩ := by
  refine ⟨?_, ?_, ?_, ?_, ?_, ?_, ?_⟩ <;> intro p <;> intros <;> simp_all

theorem rowInv_step {d1 d2 : Int} {s s' : RowState}
    (hinv : RowInv d1 d2 s) (hstep : RowStep d1 d2 s s') :
    RowInv d1 d2 s' := by
  obtain ⟨h1, h2, h3, h4, h5, h6, h7⟩ := hinv
  cases hstep with
  | acquire1 hl ht =>
    refine ⟨?_, ?_, ?_, ?_, ?_, ?_, ?_⟩
    · intro p hp
      have hp' : TxPhase.holding _ = TxPhase.holding p := hp
      injection hp' with e
      exact ⟨rfl, e⟩
    · intro p hp
      exact absurd (h2 p hp).1 (by simp [hl])
    · intro p n hp
      exact absurd (show TxPhase.holding _ = .committed p n from hp) (by simp)
    · intro p n hp
      exact h4 p n hp
    · intro p n hp
      exact absurd (show TxPhase.holding _ = .committed p n from hp) (by simp)
    · intro p n hp hq
      exact h6 p n hp (fun q m => by simp [ht])
    · intro p n q m hp
      exact absurd (show TxPhase.holding _ = .committed p n from hp) (by simp)
  | commit1 p0 hl ht =>
    have hs := (h1 p0 ht).2
    refine ⟨?_, ?_, ?_, ?_, ?_, ?_, ?_⟩
    · intro r hr
      exact absurd (show TxPhase.committed p0 (p0 + d1) = .holding r from hr)
        (by simp)
    · intro r hr
      exact absurd (h2 r hr).1 (by simp [hl])
    · intro r n hr
      have hr' : TxPhase.committed p0 (p0 + d1) = .committed r n := hr
      injection hr' with e1 e2
      all_goals omega
    · intro r n hr
      exact h4 r n hr
    · intro r n hr _
      have hr' : TxPhase.committed p0 (p0 + d1) = .committed r n := hr
      injection hr' with e1 e2
    · intro r n hr hq
      exact absurd rfl (hq p0 (p0 + d1))
    · intro r n q m hr hq
      have hr' : TxPhase.committed p0 (p0 + d1) = .committed r n := hr
      injection hr' with e1 e2
      have hm := h6 q m hq (fun a b => by simp [ht])
      right
      omega
  | acquire2 hl ht =>
    refine ⟨?_, ?_, ?_, ?_, ?_, ?_, ?_⟩
    · intro p hp
      exact absurd (h1 p hp).1 (by simp [hl])
    · intro p hp
      have hp' : TxPhase.holding _ = TxPhase.holding p := hp
      injection hp' with e
      exact ⟨rfl, e⟩
    · intro p n hp
      exact h3 p n hp
    · intro p n hp
      exact absurd (show TxPhase.holding _ = .committed p n from hp) (by simp)
    · intro p n hp hq
      exact h5 p n hp (fun q m => by simp [ht])
    · intro p n hp
      exact absurd (show TxPhase.holding _ = .committed p n from hp) (by simp)
    · intro p n q m _ hq
      exact absurd (show TxPhase.holding _ = .committed q m from hq) (by simp)
  | commit2 p0 hl ht =>
    have hs := (h2 p0 ht).2
    refine ⟨?_, ?_, ?_, ?_, ?_, ?_, ?_⟩
    · intro r hr
      exact absurd (h1 r hr).1 (by simp [hl])
    · intro r hr
      exact absurd (show TxPhase.committed p0 (p0 + d2) = .holding r from hr)
        (by simp)
    · intro r n hr
      exact h3 r n hr
    · intro r n hr
      have hr' : TxPhase.committed p0 (p0 + d2) = .committed r n := hr
      injection hr' with e1 e2
      all_goals omega
    · intro r n hr hq
      exact absurd rfl (hq p0 (p0 + d2))
    · intro r n hr _
      have hr' : TxPhase.committed p0 (p0 + d2) = .committed r n := hr
      injection hr' with e1 e2
    · intro r n q m hr hq
      have hq' : TxPhase.committed p0 (p0 + d2) = .committed q m := hq
      injection hq' with e1 e2
      have hm := h5 r n hr (fun a b => by simp [ht])
      left
      omega

theorem rowInv_reach {d1 d2 s0 : Int} {s : RowState}
    (h : RowReach d1 d2 s0 s) : RowInv d1 d2 s := by
  induction h with
  | init => exact rowInv_init d1 d2 s0
  | step _ hstep ih => exact rowInv_step ih hstep

/-- C8: two transactions mutating the same product under the row-lock
protocol never both read the same `previous_stock` and both commit — in
every reachable state where both have committed, their `previous_stock`
reads differ and one transaction's `previous_stock` equals the other's
`new_stock` (the second committer read the first committer's result). -/
theorem bulk_adjust_serializes (d1 d2 s0 : Int) (s : RowState)
    (p1 n1 p2 n2 : Int)
    (hd1 : d1 ≠ 0) (hd2 : d2 ≠ 0)
    (hreach : RowReach d1 d2 s0 s)
    (h1 : s.tx1 = .committed p1 n1) (h2 : s.tx2 = .committed p2 n2) :
    p1 ≠ p2 ∧ (p2 = n1 ∨ p1 = n2) := by
  obtain ⟨-, -, h3, h4, -, -, h7⟩ := rowInv_reach hreach
  have e1 : n1 = p1 + d1 := h3 p1 n1 h1
  have e2 : n2 = p2 + d2 := h4 p2 n2 h2
  have hdisj := h7 p1 n1 p2 n2 h1 h2
  constructor
  · rcases hdisj with h | h <;> omega
  · exact hdisj

/-- Witness for C8: a concrete serialized run — transaction 1 (delta −3)
commits from stock 10 to 7, then transaction 2 (delta +5) reads 7 and
commits to 12; the theorem's conclusion holds there. -/
theorem bulk_adjust_serializes_witness :
    (10 : Int) ≠ 7 ∧ ((7 : Int) = 7 ∨ (10 : Int) = 12) := by
  have r0 : RowReach (-3) 5 10 ⟨10, none, .idle, .idle⟩ := .init
  have r1 : RowReach (-3) 5 10 ⟨10, some 0, .holding 10, .idle⟩ :=
    .step r0 (RowStep.acquire1 _ rfl rfl)
  have r2 : RowReach (-3) 5 10 ⟨7, none, .committed 10 7, .idle⟩ :=
    .step r1 (RowStep.commit1 _ 10 rfl rfl)
  have r3 : RowReach (-3) 5 10 ⟨7, some 1, .committed 10 7, .holding 7⟩ :=
    .step r2 (RowStep.acquire2 _ rfl rfl)
  have r4 : RowReach (-3) 5 10 ⟨12, none, .committed 10 7, .committed 7 12⟩ :=
    .step r3 (RowStep.commit2 _ 7 rfl rfl)
  exact bulk_adjust_serializes (-3) 5 10 _ 10 7 7 12
    (by decide) (by decide) r4 rfl rfl


/-! ## Frontend: the bulk-adjust line parser (BulkAdjustStockModal.tsx)

The following definitions are translated from the frontend TypeScript,
which is present in the source snapshot
(`src/erp-frontend/src/components/BulkAdjustStockModal.tsx`; an identical
`parseLines` also appears in the unnamed variant file part_003).
JavaScript strings are embedded as `List Char` (`String.data`), so that
every definition is structurally recursive and kernel-evaluable.  The
behaviour of the JavaScript `Number()` builtin on the delta substring is a
parameter `num : List Char → Option Int`, where `num s = some n` means
`Number(s)` is a finite integer of value `n` (so `Number.isFinite` and
`Number.isInteger` both hold) and `num s = none` means it is `NaN`,
infinite or not an integer. -/

/-- The ASCII whitespace trimmed by JavaScript `String.prototype.trim`. -/
def jsWhitespace (c : Char) : Bool :=
  c = ' ' ∨ c = '\t' ∨ c = '\n' ∨ c = '\r' ∨ c = '\x0b' ∨ c = '\x0c'

/-- JavaScript `.trim()` on the embedded string. -/
def trimChars (l : List Char) : List Char :=
  ((l.dropWhile jsWhitespace).reverse.dropWhile jsWhitespace).reverse

/-- Split at every character satisfying `p` (one chunk between any two
separators, so consecutive separators yield empty chunks). -/
def splitChars (p : Char → Bool) : List Char → List (List Char)
  | [] => [[]]
  | c :: cs =>
    match splitChars p cs with
    | [] => if p c then [[], []] else [[c]]
    | h :: t => if p c then [] :: h :: t else (c :: h) :: t

/-- One chunk of `rawText.split(/\r?\n/)`: drop the carriage return that
preceded the newline, when present. -/
def stripCR (l : List Char) : List Char :=
  if l.getLast? = some '\r' then l.dropLast else l

/-- Translated from `rawText.split(/\r?\n/)`. -/
def splitLines (rawText : List Char) : List (List Char) :=
  (splitChars (fun c => c = '\n') rawText).map stripCR

/-- JavaScript `line.startsWith('#')`. -/
def startsWithHash : List Char → Bool
  | c :: _ => c = '#'
  | [] => false

/-- Translated from the `ParsedLine` type of BulkAdjustStockModal.tsx. -/
structure ParsedLine where
  key : List Char
  delta : Int
  lineNo : Nat
  raw : List Char
  deriving Repr, DecidableEq

/-- The outcome of the parse loop body for one line: ignored, one parsed
entry, or one error message. -/
inductive LineOut where
  | skip
  | entry (p : ParsedLine)
  | err (msg : String)
  deriving Repr, DecidableEq

/-- Translated from the body of the `for` loop of `parseLines`
(BulkAdjustStockModal.tsx lines 64-93): trim; skip blank lines and lines
starting with `#`; split on tabs, commas and spaces and drop empty
fields; require at least two fields; require a finite integer delta;
require it nonzero. -/
def processLine (num : List Char → Option Int) (lineNo : Nat)
    (raw : List Char) : LineOut :=
  let line := trimChars raw
  if line = [] then .skip
  else if startsWithHash line then .skip
  else
    let parts := (splitChars (fun c => c = '\t' ∨ c = ',' ∨ c = ' ') line).filter
      (fun s => s ≠ [])
    if parts.length < 2 then
      .err ("Line " ++ toString lineNo ++ ": expected \"SKU,delta\" (got \"" ++
        String.mk raw ++ "\")")
    else
      let key := trimChars ((parts.get? 0).getD [])
      let deltaStr := trimChars ((parts.get? 1).getD [])
      match num deltaStr with
      | none =>
        .err ("Line " ++ toString lineNo ++ ": delta must be an integer (got \"" ++
          String.mk deltaStr ++ "\")")
      | some n =>
        if n = 0 then .err ("Line " ++ toString lineNo ++ ": delta cannot be 0")
        else .entry ⟨key, n, lineNo, raw⟩

/-- Translated from `parseLines` of BulkAdjustStockModal.tsx: run the loop
body over the numbered lines, collecting parsed entries and errors in
order. -/
def parseLines (num : List Char → Option Int) (rawText : List Char) :
    List ParsedLine × List String :=
  let outs := (splitLines rawText).enum.map
    (fun il => processLine num (il.1 + 1) il.2)
  (outs.filterMap (fun o => match o with | .entry p => some p | _ => none),
   outs.filterMap (fun o => match o with | .err m => some m | _ => none))

/-- C9: in `parseLines`, a line blank after trimming or starting with `#`
is skipped (contributing neither an entry nor an error); every other line
produces exactly one parsed entry or exactly one error; every parsed entry
carries a nonzero integer delta; and the result lists are exactly the
per-line outcomes in order. -/
theorem parseLines_per_line (num : List Char → Option Int)
    (rawText : List Char) :
    (∀ l ∈ splitLines rawText,
      (trimChars l = [] ∨ startsWithHash (trimChars l)) →
      ∀ k, processLine num k l = .skip) ∧
    (∀ k l, ¬(trimChars l = [] ∨ startsWithHash (trimChars l)) →
      (∃ p, processLine num k l = .entry p) ∨
      (∃ m, processLine num k l = .err m)) ∧
    (∀ k l p, processLine num k l = .entry p → p.delta ≠ 0) ∧
    (parseLines num rawText).1 = ((splitLines rawText).enum.map
        (fun il => processLine num (il.1 + 1) il.2)).filterMap
        (fun o => match o with | .entry p => some p | _ => none) ∧
    (parseLines num rawText).2 = ((splitLines rawText).enum.map
        (fun il => processLine num (il.1 + 1) il.2)).filterMap
        (fun o => match o with | .err m => some m | _ => none) := by
  refine ⟨?_, ?_, ?_, rfl, rfl⟩
  · intro l _ hcond k
    unfold processLine
    rcases hcond with h | h
    · rw [if_pos h]
    · by_cases he : trimChars l = []
      · rw [if_pos he]
      · rw [if_neg he, if_pos h]
  · intro k l hcond
    push_neg at hcond
    have h2 : ¬ startsWithHash (trimChars l) = true := by
      simpa using hcond.2
    unfold processLine
    rw [if_neg hcond.1, if_neg h2]
    dsimp only
    split
    · exact .inr ⟨_, rfl⟩
    · split
      · exact .inr ⟨_, rfl⟩
      · split
        · exact .inr ⟨_, rfl⟩
        · exact .inl ⟨_, rfl⟩
  · intro k l p h
    unfold processLine at h
    dsimp only at h
    split at h
    · exact LineOut.noConfusion h
    split at h
    · exact LineOut.noConfusion h
    split at h
    · exact LineOut.noConfusion h
    split at h
    · exact LineOut.noConfusion h
    next n hn =>
      split at h
      · exact LineOut.noConfusion h
      next hz =>
        injection h with h
        subst h
        exact hz

/-- One concrete admissible `Number()` oracle: JavaScript `Number` on the
decimal-integer strings appearing in the witnesses — the empty string is
0, an optional leading minus followed by digits parses, and anything else
is not a finite integer. -/
def jsNumDec (s : List Char) : Option Int :=
  if s = [] then some 0
  else if s.head? = some '-' then
    (if s.tail ≠ [] ∧ s.tail.all Char.isDigit then
      some (-(s.tail.foldl (fun n c => n * 10 + (c.toNat - 48)) 0 : Int))
    else none)
  else
    (if s.all Char.isDigit then
      some ((s.foldl (fun n c => n * 10 + (c.toNat - 48)) 0 : Int))
    else none)

/-- Witness for C9 at concrete inputs: a comment line is skipped, a
well-formed line parses, and its parsed delta is nonzero. -/
theorem parseLines_per_line_witness :
    processLine jsNumDec 2 "# note".data = .skip ∧
    ((∃ p, processLine jsNumDec 1 "P001,10".data = .entry p) ∨
      (∃ m, processLine jsNumDec 1 "P001,10".data = .err m)) ∧
    (ParsedLine.mk "P001".data 10 1 "P001,10".data).delta ≠ 0 := by
  have h := parseLines_per_line jsNumDec "# note".data
  refine ⟨h.1 "# note".data (by decide) (by decide) 2,
          h.2.1 1 "P001,10".data (by decide),
          h.2.2.1 1 "P001,10".data
            (ParsedLine.mk "P001".data 10 1 "P001,10".data) (by decide)⟩

/-! ## Frontend: the bulk-adjust submission pipeline (handleOk)

Translated from `handleOk` of BulkAdjustStockModal.tsx (lines 124-280 of
the erp-frontend variant; lines 164-323 of the part_003 variant).  The two
product lookups the component performs over HTTP — `GET /api/products/?sku=`
and `GET /api/products/id/` — are parameters `bySku` and `byId` (the
in-component caches `skuToProduct` and `idCache` memoise the same
functions, so they are transparent here). -/

/-- Translated from the `ProductLite` type of BulkAdjustStockModal.tsx. -/
structure ProductLite where
  id : Nat
  sku : List Char
  stock : Int
  deriving Repr, DecidableEq

/-- JavaScript `/^\d+$/.test(key)`. -/
def isNumericKey (l : List Char) : Bool :=
  decide (l ≠ []) && l.all Char.isDigit

/-- JavaScript `Number(key)` on an all-digit key. -/
def toNatDigits (l : List Char) : Nat :=
  l.foldl (fun n c => n * 10 + (c.toNat - 48)) 0

/-- One aggregation-map entry of the `agg` map plus its `meta` fields
(product_id key, accumulated delta, skuHint, currentStock, lineNos). -/
structure AggEntry where
  product_id : Nat
  delta : Int
  skuHint : Option (List Char)
  currentStock : Option Int
  lineNos : List Nat
  deriving Repr, DecidableEq

/-- The outcome of resolving one parsed line to a product (the lookup
part of the aggregation loop body, lines 188-221): a product id with the
line's skuHint and the product's current stock, or one per-line error. -/
inductive Resolved where
  | ok (product_id : Nat) (skuHint : Option (List Char)) (currentStock : Int)
  | err (msg : String)
  deriving Repr, DecidableEq

/-- Translated from the lookup part of the aggregation loop body: numeric
keys go through `fetchProductById`, other keys through the sku prefetch
map; a product id of 0 is rejected by the falsy `if (!productId)` check. -/
def resolveLine (bySku : List Char → Option ProductLite)
    (byId : Nat → Option ProductLite) (item : ParsedLine) : Resolved :=
  if isNumericKey item.key then
    match byId (toNatDigits item.key) with
    | none =>
      .err ("Line " ++ toString item.lineNo ++ ": product id " ++
        toString (toNatDigits item.key) ++ " does not exist")
    | some p =>
      if p.id = 0 then
        .err ("Line " ++ toString item.lineNo ++
          ": invalid product identifier \"" ++ String.mk item.key ++ "\"")
      else .ok p.id none p.stock
  else
    match bySku item.key with
    | none =>
      .err ("Line " ++ toString item.lineNo ++ ": product not found for \"" ++
        String.mk item.key ++ "\"")
    | some p =>
      if p.id = 0 then
        .err ("Line " ++ toString item.lineNo ++
          ": invalid product identifier \"" ++ String.mk item.key ++ "\"")
      else .ok p.id (some item.key) p.stock

/-- Translated from the aggregation merge (lines 223-231):
`prev.delta + item.delta`, first-set skuHint and currentStock win,
lineNos appended. -/
def mergeEntry (item : ParsedLine) (skuHint : Option (List Char))
    (cur : Int) (e : AggEntry) : AggEntry :=
  { e with
    delta := e.delta + item.delta
    skuHint := e.skuHint.orElse (fun _ => skuHint)
    currentStock := e.currentStock.orElse (fun _ => some cur)
    lineNos := e.lineNos ++ [item.lineNo] }

/-- Translated from the aggregation update (lines 223-231): merge the
line into the existing entry for its product, or append a fresh entry; a
failed lookup pushes its message onto `perLineErrors`. -/
def aggStep (bySku : List Char → Option ProductLite)
    (byId : Nat → Option ProductLite)
    (acc : List AggEntry × List String) (item : ParsedLine) :
    List AggEntry × List String :=
  match resolveLine bySku byId item with
  | .err m => (acc.1, acc.2 ++ [m])
  | .ok pid skuHint cur =>
    if acc.1.any (fun e => e.product_id = pid) then
      (acc.1.map (fun e =>
        if e.product_id = pid then mergeEntry item skuHint cur e else e), acc.2)
    else (acc.1 ++ [⟨pid, item.delta, skuHint, some cur, [item.lineNo]⟩], acc.2)

/-- The whole aggregation loop over the parsed lines (JS `Map` iteration
order is insertion order, kept here as list order). -/
def aggLoop (bySku : List Char → Option ProductLite)
    (byId : Nat → Option ProductLite) (parsed : List ParsedLine) :
    List AggEntry × List String :=
  parsed.foldl (aggStep bySku byId) ([], [])

/-- JavaScript `Set` insertion-order deduplication of the sku keys. -/
def dedupKeys (l : List (List Char)) : List (List Char) :=
  l.foldl (fun acc k => if k ∈ acc then acc else acc ++ [k]) []

/-- Translated from the sku prefetch (lines 138-169): every non-numeric
key is looked up by sku; each miss contributes one error. -/
def skuLookupErrors (bySku : List Char → Option ProductLite)
    (parsed : List ParsedLine) : List String :=
  ((dedupKeys (parsed.filterMap
      (fun it => if isNumericKey it.key then none else some it.key))).filter
    (fun k => (bySku k).isNone)).map
    (fun k => "SKU not found: " ++ String.mk k)

/-- The `adjustments` list (lines 239-241): aggregation entries whose net
delta is nonzero, in map order. -/
def pipelineAdjustments (num : List Char → Option Int)
    (bySku : List Char → Option ProductLite) (byId : Nat → Option ProductLite)
    (rawText : List Char) : List AggEntry :=
  (aggLoop bySku byId (parseLines num rawText).1).1.filter
    (fun a => a.delta ≠ 0)

/-- Translated from the precheck predicate (lines 249-252):
`Number.isFinite(cur) && (cur + x.delta) < 0`. -/
def violatesNeg (a : AggEntry) : Bool :=
  match a.currentStock with
  | some c => decide (c + a.delta < 0)
  | none => false

/-- The observable outcome of one `handleOk` run: which early-return was
taken, or the payload posted to `/api/products/bulk_adjust_stock/`. -/
inductive Decision where
  | rejectParse (errors : List String)
  | rejectEmptyInput
  | rejectSkuLookup (errors : List String)
  | rejectLines (errors : List String)
  | rejectAllZero
  | rejectNegative (a : AggEntry)
  | submit (payload : List (Nat × Int))
  deriving Repr, DecidableEq

/-- Translated from `handleOk` (lines 124-267): parse, reject on parse
errors or empty input, reject on sku lookup misses, run the aggregation
loop and reject on per-line errors, drop zero nets and reject an all-zero
batch, reject on the first negative precheck hit, else submit the
`(product_id, delta)` payload. -/
def handleOkDecision (num : List Char → Option Int)
    (bySku : List Char → Option ProductLite) (byId : Nat → Option ProductLite)
    (rawText : List Char) : Decision :=
  let pe := parseLines num rawText
  if pe.2 ≠ [] then .rejectParse pe.2
  else if pe.1.isEmpty then .rejectEmptyInput
  else if skuLookupErrors bySku pe.1 ≠ [] then
    .rejectSkuLookup (skuLookupErrors bySku pe.1)
  else if (aggLoop bySku byId pe.1).2 ≠ [] then
    .rejectLines (aggLoop bySku byId pe.1).2
  else
    let adjustments := pipelineAdjustments num bySku byId rawText
    if adjustments.isEmpty then .rejectAllZero
    else
      match adjustments.find? violatesNeg with
      | some a => .rejectNegative a
      | none => .submit (adjustments.map (fun a => (a.product_id, a.delta)))

/-- The product ids named by the diagnostic of a decision (the negative
precheck message names exactly one product). -/
def reportedIds : Decision → List Nat
  | .rejectNegative a => [a.product_id]
  | _ => []

/-- The product id a parsed line resolves to, if its lookup succeeds. -/
def resolvedId (bySku : List Char → Option ProductLite)
    (byId : Nat → Option ProductLite) (it : ParsedLine) : Option Nat :=
  match resolveLine bySku byId it with
  | .ok pid _ _ => some pid
  | .err _ => none

/-- The net delta of a product over a parsed-line list: the sum of the
deltas of the lines resolving to it. -/
def netDelta (bySku : List Char → Option ProductLite)
    (byId : Nat → Option ProductLite) (parsed : List ParsedLine)
    (pid : Nat) : Int :=
  ((parsed.filter (fun it => resolvedId bySku byId it = some pid)).map
    ParsedLine.delta).sum

/-- The delta recorded for product `pid` in an aggregation list (0 when
absent). -/
def deltaOf (agg : List AggEntry) (pid : Nat) : Int :=
  match agg.find? (fun e => e.product_id = pid) with
  | some e => e.delta
  | none => 0

/-! ## Aggregation lemmas -/

theorem find?_append_or {α : Type} (p : α → Bool) :
    ∀ (l₁ l₂ : List α), (l₁ ++ l₂).find? p =
      ((l₁.find? p).orElse (fun _ => l₂.find? p)) := by
  intro l₁ l₂
  induction l₁ with
  | nil => rfl
  | cons a l ih =>
    by_cases h : p a
    · rw [List.cons_append, List.find?_cons_of_pos _ h,
          List.find?_cons_of_pos _ h]
      rfl
    · rw [List.cons_append, List.find?_cons_of_neg _ h,
          List.find?_cons_of_neg _ h]
      exact ih

theorem find?_isSome_of_any {α : Type} (p : α → Bool) :
    ∀ l : List α, l.any p = true → ∃ e, l.find? p = some e := by
  intro l
  induction l with
  | nil => intro h; simp at h
  | cons a l ih =>
    intro h
    by_cases hpa : p a
    · exact ⟨a, List.find?_cons_of_pos _ hpa⟩
    · rw [List.any_cons] at h
      simp only [hpa, Bool.false_or] at h
      obtain ⟨e, he⟩ := ih h
      exact ⟨e, by rw [List.find?_cons_of_neg _ hpa]; exact he⟩

theorem deltaOf_update_other (agg : List AggEntry) (pid0 pid : Nat)
    (g : AggEntry → AggEntry) (hid : ∀ e, (g e).product_id = e.product_id)
    (hne : pid ≠ pid0) :
    deltaOf (agg.map (fun e => if e.product_id = pid0 then g e else e)) pid =
      deltaOf agg pid := by
  unfold deltaOf
  rw [find?_map_key_pres _ _ AggEntry.product_id
        (fun e => by by_cases h : e.product_id = pid0 <;> simp [h, hid]) pid]
  cases hf : agg.find? (fun e => e.product_id = pid) with
  | none => rfl
  | some e =>
    have hp := List.find?_some hf
    simp only [decide_eq_true_eq] at hp
    have : ¬ e.product_id = pid0 := by omega
    simp [this]

theorem deltaOf_update_self (agg : List AggEntry) (pid0 : Nat) (d : Int)
    (g : AggEntry → AggEntry) (hid : ∀ e, (g e).product_id = e.product_id)
    (hd : ∀ e, (g e).delta = e.delta + d)
    (hmem : agg.any (fun e => e.product_id = pid0) = true) :
    deltaOf (agg.map (fun e => if e.product_id = pid0 then g e else e)) pid0 =
      deltaOf agg pid0 + d := by
  unfold deltaOf
  rw [find?_map_key_pres _ _ AggEntry.product_id
        (fun e => by by_cases h : e.product_id = pid0 <;> simp [h, hid]) pid0]
  obtain ⟨e, he⟩ := find?_isSome_of_any _ agg hmem
  rw [he]
  have hp := List.find?_some he
  simp only [decide_eq_true_eq] at hp
  simp [hp, hd]

theorem deltaOf_append_self (agg : List AggEntry) (new : AggEntry)
    (hfnone : agg.find? (fun e => e.product_id = new.product_id) = none) :
    deltaOf (agg ++ [new]) new.product_id = new.delta := by
  unfold deltaOf
  rw [find?_append_or, hfnone]
  simp [List.find?]

theorem deltaOf_append_other (agg : List AggEntry) (new : AggEntry)
    (pid : Nat) (hne : pid ≠ new.product_id) :
    deltaOf (agg ++ [new]) pid = deltaOf agg pid := by
  unfold deltaOf
  rw [find?_append_or]
  cases hf : agg.find? (fun e => e.product_id = pid) with
  | none =>
    have : ¬ new.product_id = pid := by omega
    simp [Option.orElse, List.find?, this]
  | some e => rfl

theorem netDelta_cons (bySku : List Char → Option ProductLite)
    (byId : Nat → Option ProductLite) (item : ParsedLine)
    (rest : List ParsedLine) (pid : Nat) :
    netDelta bySku byId (item :: rest) pid =
      (if resolvedId bySku byId item = some pid then item.delta else 0) +
        netDelta bySku byId rest pid := by
  unfold netDelta
  by_cases h : resolvedId bySku byId item = some pid
  · simp [List.filter_cons, h]
  · simp [List.filter_cons, h]

/-- The aggregation fold keeps product ids unique and accumulates, for
every product, exactly the net sum of the deltas of the lines resolving
to it. -/
theorem aggFold_spec (bySku : List Char → Option ProductLite)
    (byId : Nat → Option ProductLite) :
    ∀ (parsed : List ParsedLine) (acc : List AggEntry × List String),
    (acc.1.map AggEntry.product_id).Nodup →
    (((parsed.foldl (aggStep bySku byId) acc).1.map AggEntry.product_id).Nodup ∧
     ∀ pid, deltaOf (parsed.foldl (aggStep bySku byId) acc).1 pid =
       deltaOf acc.1 pid + netDelta bySku byId parsed pid) := by
  intro parsed
  induction parsed with
  | nil =>
    intro acc hnd
    refine ⟨hnd, fun pid => ?_⟩
    simp [netDelta]
  | cons item rest ih =>
    intro acc hnd
    rw [List.foldl_cons]
    cases hr : resolveLine bySku byId item with
    | ok pid' sk cur =>
      have hres : resolvedId bySku byId item = some pid' := by
        unfold resolvedId
        rw [hr]
      by_cases hmem : acc.1.any (fun e => e.product_id = pid') = true
      · have hstep : aggStep bySku byId acc item =
            (acc.1.map (fun e =>
              if e.product_id = pid' then mergeEntry item sk cur e else e),
             acc.2) := by
          unfold aggStep
          simp only [hr]
          rw [if_pos hmem]
        rw [hstep]
        have hnd1 : ((acc.1.map (fun e =>
            if e.product_id = pid' then mergeEntry item sk cur e else e)).map
              AggEntry.product_id).Nodup := by
          rw [List.map_map,
              show acc.1.map (AggEntry.product_id ∘ (fun e =>
                  if e.product_id = pid' then mergeEntry item sk cur e else e)) =
                acc.1.map AggEntry.product_id from
                List.map_congr_left (fun e _ => by
                  by_cases h : e.product_id = pid' <;> simp [h, mergeEntry])]
          exact hnd
        obtain ⟨hnd', hdel⟩ := ih (acc.1.map (fun e =>
          if e.product_id = pid' then mergeEntry item sk cur e else e), acc.2) hnd1
        refine ⟨hnd', fun pid => ?_⟩
        rw [hdel pid]
        dsimp only
        rw [netDelta_cons, hres]
        by_cases hpe : pid = pid'
        · subst hpe
          rw [deltaOf_update_self acc.1 pid item.delta (mergeEntry item sk cur)
                (fun e => rfl) (fun e => rfl) hmem]
          rw [if_pos (rfl : (some pid : Option Nat) = some pid)]
          omega
        · rw [deltaOf_update_other acc.1 pid' pid (mergeEntry item sk cur)
                (fun e => rfl) hpe]
          rw [if_neg (by simp; omega)]
          omega
      · have hstep : aggStep bySku byId acc item =
            (acc.1 ++ [⟨pid', item.delta, sk, some cur, [item.lineNo]⟩],
             acc.2) := by
          unfold aggStep
          simp only [hr]
          rw [if_neg hmem]
        rw [hstep]
        have hfnone : acc.1.find? (fun e => e.product_id = pid') = none := by
          rw [List.find?_eq_none]
          intro x hx
          simp only [decide_eq_true_eq]
          intro hc
          exact hmem (List.any_eq_true.mpr ⟨x, hx, by simp [hc]⟩)
        have hnotin : pid' ∉ acc.1.map AggEntry.product_id := by
          intro hin
          obtain ⟨e, he, hpe⟩ := List.mem_map.mp hin
          exact hmem (List.any_eq_true.mpr ⟨e, he, by simp [hpe]⟩)
        have hnd1 : (((acc.1 ++
            [(⟨pid', item.delta, sk, some cur, [item.lineNo]⟩ : AggEntry)]).map
              AggEntry.product_id)).Nodup := by
          rw [List.map_append, List.nodup_append]
          refine ⟨hnd, List.nodup_singleton _, ?_⟩
          intro a ha hb
          simp at hb
          subst hb
          exact hnotin ha
        obtain ⟨hnd', hdel⟩ := ih (acc.1 ++
          [(⟨pid', item.delta, sk, some cur, [item.lineNo]⟩ : AggEntry)], acc.2) hnd1
        refine ⟨hnd', fun pid => ?_⟩
        rw [hdel pid]
        dsimp only
        rw [netDelta_cons, hres]
        by_cases hpe : pid = pid'
        · subst hpe
          rw [show deltaOf (acc.1 ++
                [(⟨pid, item.delta, sk, some cur, [item.lineNo]⟩ : AggEntry)]) pid =
              item.delta from deltaOf_append_self acc.1 _ hfnone]
          rw [show deltaOf acc.1 pid = 0 from by unfold deltaOf; rw [hfnone]]
          rw [if_pos (rfl : (some pid : Option Nat) = some pid)]
          omega
        · rw [deltaOf_append_other acc.1 _ pid hpe]
          rw [if_neg (by simp; omega)]
          omega
    | err m =>
      have hstep : aggStep bySku byId acc item = (acc.1, acc.2 ++ [m]) := by
        unfold aggStep
        simp only [hr]
      rw [hstep]
      obtain ⟨hnd', hdel⟩ := ih (acc.1, acc.2 ++ [m]) hnd
      refine ⟨hnd', fun pid => ?_⟩
      rw [hdel pid]
      dsimp only
      rw [netDelta_cons]
      rw [show resolvedId bySku byId item = none from by
        unfold resolvedId; rw [hr]]
      simp

/-- In an aggregation list with unique product ids, each entry records
the delta filed under its own product id. -/
theorem deltaOf_mem :
    ∀ (agg : List AggEntry), (agg.map AggEntry.product_id).Nodup →
    ∀ e ∈ agg, deltaOf agg e.product_id = e.delta := by
  intro agg
  induction agg with
  | nil =>
    intro _ e he
    simp at he
  | cons a l ih =>
    intro hnd e he
    rw [List.map_cons] at hnd
    have hnd' := List.nodup_cons.mp hnd
    rcases List.mem_cons.mp he with rfl | he'
    · unfold deltaOf
      rw [List.find?_cons_of_pos _ (by simp)]
    · have hna : ¬ a.product_id = e.product_id := by
        intro hc
        exact hnd'.1 (hc ▸ List.mem_map_of_mem _ he')
      unfold deltaOf
      rw [List.find?_cons_of_neg _ (by simpa using hna)]
      exact ih hnd'.2 e he'

theorem find?_first {α : Type} (p : α → Bool) :
    ∀ (l : List α) (a : α), l.find? p = some a →
      p a = true ∧ ∃ pre post, l = pre ++ a :: post ∧ ∀ b ∈ pre, p b = false := by
  intro l
  induction l with
  | nil =>
    intro a h
    simp [List.find?] at h
  | cons x l ih =>
    intro a h
    by_cases hx : p x
    · rw [List.find?_cons_of_pos _ hx] at h
      injection h with h
      subst h
      exact ⟨hx, [], l, rfl, by simp⟩
    · rw [List.find?_cons_of_neg _ hx] at h
      obtain ⟨hpa, pre, post, heq, hpre⟩ := ih a h
      refine ⟨hpa, x :: pre, post, by rw [heq, List.cons_append], ?_⟩
      intro b hb
      rcases List.mem_cons.mp hb with rfl | hb'
      · simpa using hx
      · exact hpre b hb'

/-! ## Claims C4 and C5 -/

/-- C4: whenever `handleOk` submits a bulk-adjust payload, each product
appears at most once in it (so at most one movement per distinct product
can result from the batch), each submitted delta is the nonzero net sum
of that product's input lines, and a product whose lines net to zero is
absent from the payload (zero stock mutation and zero movements for
it). -/
theorem bulk_adjust_aggregates (num : List Char → Option Int)
    (bySku : List Char → Option ProductLite) (byId : Nat → Option ProductLite)
    (rawText : List Char) (payload : List (Nat × Int))
    (h : handleOkDecision num bySku byId rawText = .submit payload) :
    (payload.map Prod.fst).Nodup ∧
    (∀ e ∈ payload, e.2 ≠ 0 ∧
      e.2 = netDelta bySku byId (parseLines num rawText).1 e.1) ∧
    (∀ pid, netDelta bySku byId (parseLines num rawText).1 pid = 0 →
      pid ∉ payload.map Prod.fst) := by
  unfold handleOkDecision at h
  dsimp only at h
  split at h
  · exact Decision.noConfusion h
  split at h
  · exact Decision.noConfusion h
  split at h
  · exact Decision.noConfusion h
  split at h
  · exact Decision.noConfusion h
  split at h
  · exact Decision.noConfusion h
  split at h
  · exact Decision.noConfusion h
  injection h with h
  subst h
  obtain ⟨hndAgg, hdel⟩ :=
    aggFold_spec bySku byId (parseLines num rawText).1 ([], []) (by simp)
  have hdel0 : ∀ pid,
      deltaOf (aggLoop bySku byId (parseLines num rawText).1).1 pid =
        netDelta bySku byId (parseLines num rawText).1 pid := by
    intro pid
    have := hdel pid
    simpa [deltaOf, aggLoop] using this
  have hmemdelta : ∀ a ∈ pipelineAdjustments num bySku byId rawText,
      a.delta ≠ 0 ∧
      a.delta = netDelta bySku byId (parseLines num rawText).1 a.product_id := by
    intro a ha
    have hmf := List.mem_filter.mp ha
    have hne : a.delta ≠ 0 := by simpa using hmf.2
    refine ⟨hne, ?_⟩
    rw [← hdel0 a.product_id]
    exact (deltaOf_mem _ hndAgg a hmf.1).symm
  have hkeys :
      ((pipelineAdjustments num bySku byId rawText).map
          (fun a => (a.product_id, a.delta))).map Prod.fst =
        (pipelineAdjustments num bySku byId rawText).map AggEntry.product_id := by
    rw [List.map_map]
    rfl
  refine ⟨?_, ?_, ?_⟩
  · rw [hkeys]
    exact hndAgg.sublist
      (List.Sublist.map AggEntry.product_id (List.filter_sublist _))
  · intro e he
    obtain ⟨a, ha, rfl⟩ := List.mem_map.mp he
    exact hmemdelta a ha
  · intro pid hz hmem
    rw [hkeys] at hmem
    obtain ⟨a, ha, rfl⟩ := List.mem_map.mp hmem
    obtain ⟨hne, hnd⟩ := hmemdelta a ha
    rw [hz] at hnd
    exact hne hnd

/-- Concrete sku table for the C4 witness. -/
def bySkuW : List Char → Option ProductLite := fun k =>
  if k = "P1".data then some ⟨1, "P1".data, 10⟩
  else if k = "P2".data then some ⟨2, "P2".data, 10⟩
  else none

/-- Concrete id table for the C4 witness (no numeric keys are used). -/
def byIdW : Nat → Option ProductLite := fun _ => none

/-- The C4 witness input: two lines for P1 netting to zero plus one for
P2. -/
def rawW : List Char := "P1,5\nP1,-5\nP2,3".data

/-- Witness for C4 at a concrete input: the `(P1,+5),(P1,-5),(P2,+3)`
batch submits only `(2, +3)` — P1 nets to zero and is not submitted. -/
theorem bulk_adjust_aggregates_witness :
    handleOkDecision jsNumDec bySkuW byIdW rawW = .submit [(2, 3)] ∧
    ([(2, 3)].map Prod.fst).Nodup ∧
    netDelta bySkuW byIdW (parseLines jsNumDec rawW).1 1 = 0 ∧
    1 ∉ ([(2, 3)].map Prod.fst) := by
  have hdec : handleOkDecision jsNumDec bySkuW byIdW rawW = .submit [(2, 3)] := by
    decide
  have h := bulk_adjust_aggregates jsNumDec bySkuW byIdW rawW [(2, 3)] hdec
  exact ⟨hdec, h.1, by decide, h.2.2 1 (by decide)⟩

/-- C5 counterexample inputs: two products, both with stock 0, both
driven negative. -/
def byIdC : Nat → Option ProductLite := fun id =>
  if id = 1 then some ⟨1, "P1".data, 0⟩
  else if id = 2 then some ⟨2, "P2".data, 0⟩
  else none

/-- C5 counterexample sku table (all keys are numeric, so unused). -/
def bySkuC : List Char → Option ProductLite := fun _ => none

/-- C5 counterexample input: both product 1 and product 2 would go
negative. -/
def rawC : List Char := "1,-5\n2,-3".data

/-- Counterexample to C5 as stated: on a batch where both products 1 and
2 violate the non-negativity check, the rejection reports only product 1
(the first violator found); product 2 violates but is named nowhere in
the diagnostic, so the rejection does not report every violating
product. -/
theorem bulk_adjust_report_counterexample :
    handleOkDecision jsNumDec bySkuC byIdC rawC =
      .rejectNegative ⟨1, -5, none, some 0, [1]⟩ ∧
    (⟨2, -3, none, some 0, [2]⟩ : AggEntry) ∈
      pipelineAdjustments jsNumDec bySkuC byIdC rawC ∧
    violatesNeg ⟨2, -3, none, some 0, [2]⟩ = true ∧
    2 ∉ reportedIds (handleOkDecision jsNumDec bySkuC byIdC rawC) := by
  exact ⟨by decide, by decide, by decide, by decide⟩

/-- C5 (amended): a batch in which some computed resulting stock is
negative is rejected as a whole — it is never submitted — and the
rejection carries the first violating adjustment in batch order (with its
product identity, current stock and delta), not every violator. -/
theorem bulk_adjust_reject_first_violator (num : List Char → Option Int)
    (bySku : List Char → Option ProductLite) (byId : Nat → Option ProductLite)
    (rawText : List Char) :
    (∀ payload, handleOkDecision num bySku byId rawText = .submit payload →
      ∀ a ∈ pipelineAdjustments num bySku byId rawText,
        violatesNeg a = false) ∧
    (∀ a, handleOkDecision num bySku byId rawText = .rejectNegative a →
      violatesNeg a = true ∧
      ∃ pre post, pipelineAdjustments num bySku byId rawText =
        pre ++ a :: post ∧ ∀ b ∈ pre, violatesNeg b = false) := by
  constructor
  · intro payload h a ha
    unfold handleOkDecision at h
    dsimp only at h
    split at h
    · exact Decision.noConfusion h
    split at h
    · exact Decision.noConfusion h
    split at h
    · exact Decision.noConfusion h
    split at h
    · exact Decision.noConfusion h
    split at h
    · exact Decision.noConfusion h
    next hfind =>
      split at h
      · exact Decision.noConfusion h
      next hnone =>
        have := List.find?_eq_none.mp hnone a ha
        simpa using this
  · intro a h
    unfold handleOkDecision at h
    dsimp only at h
    split at h
    · exact Decision.noConfusion h
    split at h
    · exact Decision.noConfusion h
    split at h
    · exact Decision.noConfusion h
    split at h
    · exact Decision.noConfusion h
    split at h
    · exact Decision.noConfusion h
    next hsome =>
      split at h
      · next a0 hfind =>
        injection h with h
        subst h
        exact find?_first violatesNeg _ _ hfind
      · exact Decision.noConfusion h

/-- Witness for C5 (amended) at the counterexample input: the decision is
a rejection whose reported adjustment is the earliest violator. -/
theorem bulk_adjust_reject_first_violator_witness :
    violatesNeg ⟨1, -5, none, some 0, [1]⟩ = true ∧
    (∃ pre post, pipelineAdjustments jsNumDec bySkuC byIdC rawC =
      pre ++ (⟨1, -5, none, some 0, [1]⟩ : AggEntry) :: post ∧
      ∀ b ∈ pre, violatesNeg b = false) :=
  (bulk_adjust_reject_first_violator jsNumDec bySkuC byIdC rawC).2
    (⟨1, -5, none, some 0, [1]⟩ : AggEntry) (by decide)

/-! ## Claim C10: the order-creation payload (CreateOrderModal.tsx)

Translated from the frontend TypeScript in the source snapshot:
`handleSubmit` of `src/erp-frontend/src/components/CreateOrderModal.tsx`
(lines 46-58) and the `CreateOrderPayload` interface of the unnamed source
file part_009, whose header comment identifies it as `src/api/orders.ts`
and which declares `customer_name : string` as a required field. -/

/-- A JSON value, as posted over HTTP. -/
inductive Json where
  | jnum (n : Int)
  | jstr (s : String)
  | jarr (elems : List Json)
  | jobj (fields : List (String × Json))

/-- The top-level field names of a JSON object. -/
def topKeys : Json → List String
  | .jobj fields => fields.map Prod.fst
  | _ => []

/-- One line item of the order form (`values.items`). -/
structure FormItem where
  product_id : Nat
  quantity : Nat
  deriving Repr, DecidableEq

/-- The submitted form values used by `handleSubmit`. -/
structure FormValues where
  customer_id : Nat
  items : List FormItem
  deriving Repr, DecidableEq

/-- Translated from the item mapper of `handleSubmit` (lines 52-55):
`values.items.map(item => (\x7b product_id: item.product_id, quantity:
item.quantity \x7d))`. -/
def buildOrderItemJson (it : FormItem) : Json :=
  .jobj [("product_id", .jnum it.product_id), ("quantity", .jnum it.quantity)]

/-- Translated from the payload object literal of `handleSubmit` (lines
50-56): only `customer_id` and `items` are written. -/
def buildOrderPayload (v : FormValues) : Json :=
  .jobj [("customer_id", .jnum v.customer_id),
         ("items", .jarr (v.items.map buildOrderItemJson))]

/-- Translated from the `CreateOrderPayload` interface of part_009
(`src/api/orders.ts`): its field names with their requiredness —
`customer_id` optional (`customer_id?: number | null`), `customer_name`
a required `string`, `items` required. -/
def createOrderPayloadFields : List (String × Bool) :=
  [("customer_id", false), ("customer_name", true), ("items", true)]

/-- C10: every payload the order-creation modal posts has exactly the
top-level fields `customer_id` and `items`, each item has exactly the
fields `product_id` and `quantity`, and `customer_name` is omitted even
though the `CreateOrderPayload` type declares it as a required field. -/
theorem create_order_payload_fields (v : FormValues) :
    topKeys (buildOrderPayload v) = ["customer_id", "items"] ∧
    "customer_name" ∉ topKeys (buildOrderPayload v) ∧
    (∀ it : FormItem, topKeys (buildOrderItemJson it) =
      ["product_id", "quantity"]) ∧
    ("customer_name", true) ∈ createOrderPayloadFields := by
  refine ⟨rfl, ?_, fun it => rfl, by decide⟩
  intro hmem
  rw [show topKeys (buildOrderPayload v) = ["customer_id", "items"] from rfl]
    at hmem
  simp at hmem

/-- Witness for C10 at a concrete form submission. -/
theorem create_order_payload_fields_witness :
    topKeys (buildOrderPayload ⟨7, [⟨1, 2⟩]⟩) = ["customer_id", "items"] ∧
    "customer_name" ∉ topKeys (buildOrderPayload ⟨7, [⟨1, 2⟩]⟩) ∧
    topKeys (buildOrderItemJson ⟨1, 2⟩) = ["product_id", "quantity"] :=
  ⟨(create_order_payload_fields ⟨7, [⟨1, 2⟩]⟩).1,
   (create_order_payload_fields ⟨7, [⟨1, 2⟩]⟩).2.1,
   (create_order_payload_fields ⟨7, [⟨1, 2⟩]⟩).2.2.1 ⟨1, 2⟩⟩

/-- A database holding one already-cancelled order. -/
def dbCancelled : Db :=
  ⟨[⟨1, "P001", 7⟩], [⟨1, "Alice", .cancelled, [⟨1, 3⟩]⟩], [], 2⟩

/-- Witness for C7 at a concrete input: re-cancelling the cancelled order
1 is rejected with `OrderAlreadyCancelled` and the state is unchanged. -/
theorem cancel_already_cancelled_policy_witness :
    cancelOrder dbCancelled 1 = .error (.orderAlreadyCancelled 1) ∧
    runCancelOrder dbCancelled 1 = dbCancelled :=
  cancel_already_cancelled_policy dbCancelled 1 ⟨1, "Alice", .cancelled, [⟨1, 3⟩]⟩
    (by rfl) (by rfl)

end Erp
